import Mathlib

/-!
Shallow embedding of the molecular/sequence analysis core of the
MUTASIGHT-pro repository (src/molecular_utils.py and src/routes.py),
together with theorems settling the specification claims.

Python strings are modelled as `List Char` (all analysed text is ASCII);
Python floats are modelled as exact rationals `ℚ`, with Python's
`round(x, n)` modelled as round-half-to-even on the exact value.
-/

namespace MutaSight

/-- Python strings, as lists of characters. -/
abbrev Str := List Char

/-- Round a rational to the nearest integer, ties to even
(the tie rule of Python's `round`). -/
def roundHalfEven (q : ℚ) : ℤ :=
  if q - (⌊q⌋ : ℚ) < 1/2 then ⌊q⌋
  else if 1/2 < q - (⌊q⌋ : ℚ) then ⌊q⌋ + 1
  else if ⌊q⌋ % 2 = 0 then ⌊q⌋ else ⌊q⌋ + 1

/-- Python `round(x, 2)` on exact rationals. -/
def round2 (q : ℚ) : ℚ := (roundHalfEven (q * 100) : ℚ) / 100

/-- Python `round(x, 1)` on exact rationals. -/
def round1 (q : ℚ) : ℚ := (roundHalfEven (q * 10) : ℚ) / 10

/-- ASCII uppercase letter test; models the regex class `[A-Z]`. -/
def isUpperAZ (c : Char) : Bool := 'A' ≤ c && c ≤ 'Z'

/-- ASCII lowercase letter test; models the regex class `[a-z]`. -/
def isLowerAZ (c : Char) : Bool := 'a' ≤ c && c ≤ 'z'

/-- ASCII digit test; models the regex class `[0-9]`. -/
def isDigit09 (c : Char) : Bool := '0' ≤ c && c ≤ '9'

/-- Python `str.count` for a single-character needle. -/
def countChar (c : Char) : Str → Nat
  | [] => 0
  | a :: s => (if a = c then 1 else 0) + countChar c s

/-- Python `str.count` for a two-character needle
(non-overlapping occurrences, scanned left to right). -/
def countSub2 (a b : Char) : Str → Nat
  | [] => 0
  | [_] => 0
  | x :: y :: s => if x = a ∧ y = b then 1 + countSub2 a b s else countSub2 a b (y :: s)

/-- Python `str.lower()` (ASCII; all inputs of interest are ASCII). -/
def pyLower (s : Str) : Str := s.map Char.toLower

/-- Python `str.upper()` (ASCII). -/
def pyUpper (s : Str) : Str := s.map Char.toUpper

/-- Python whitespace characters (for `str.strip` / `str.split`). -/
def pyIsSpace (c : Char) : Bool :=
  c = ' ' || c = '\t' || c = '\n' || c = '\x0d' || c = '\x0b' || c = '\x0c'

/-- Python `str.strip()`. -/
def pyStrip (s : Str) : Str :=
  ((s.dropWhile pyIsSpace).reverse.dropWhile pyIsSpace).reverse

/-- Decimal digit characters of a natural number. -/
def natToChars (n : Nat) : Str := (Nat.repr n).toList

/-! ## molecular_utils.py: `MolecularAnalyzer.atomic_weights` -/

/-- The `atomic_weights` dict of `MolecularAnalyzer` (molecular_utils.py),
as an association list in source order. -/
def atomicWeightTable : List (Str × ℚ) :=
  [(['H'], 1.008), (['C'], 12.011), (['N'], 14.007), (['O'], 15.999),
   (['F'], 18.998), (['P'], 30.974), (['S'], 32.065), (['C', 'l'], 35.453),
   (['B', 'r'], 79.904), (['I'], 126.904), (['N', 'a'], 22.990),
   (['K'], 39.098), (['M', 'g'], 24.305), (['C', 'a'], 40.078),
   (['F', 'e'], 55.845), (['Z', 'n'], 65.409), (['C', 'u'], 63.546),
   (['M', 'n'], 54.938), (['C', 'o'], 58.933), (['N', 'i'], 58.693)]

/-- Dict lookup in the atomic-weight table. -/
def atomic_weights (a : Str) : Option ℚ := atomicWeightTable.lookup a

/-! ## molecular_utils.py: `calculate_molecular_weight_from_formula`

The formula is tokenized by `re.findall(r'([A-Z][a-z]?)(\d*)', formula)`:
left-to-right, non-overlapping; a token is one uppercase letter, an optional
lowercase letter, and an optional decimal count (defaulting to 1). -/

/-- Numeric value of a digit string (Python `int` on a digit run). -/
def natOfDigits (ds : Str) : Nat :=
  ds.foldl (fun n c => 10 * n + (c.toNat - '0'.toNat)) 0

/-- The count attached to a token: empty digit run means 1. -/
def countOfDigits (ds : Str) : Nat := if ds = [] then 1 else natOfDigits ds

/-- The (element symbol, count) tokens produced by
`re.findall(r'([A-Z][a-z]?)(\d*)', formula)`. -/
def formulaTokens : Str → List (Str × Nat)
  | [] => []
  | c :: cs =>
    if isUpperAZ c then
      match cs with
      | c2 :: cs2 =>
        if isLowerAZ c2 then
          ([c, c2], countOfDigits (cs2.takeWhile isDigit09)) ::
            formulaTokens (cs2.drop (cs2.takeWhile isDigit09).length)
        else
          ([c], countOfDigits ((c2 :: cs2).takeWhile isDigit09)) ::
            formulaTokens ((c2 :: cs2).drop (((c2 :: cs2).takeWhile isDigit09).length))
      | [] => [([c], 1)]
    else formulaTokens cs
termination_by s => s.length
decreasing_by
  · simp only [List.length_cons, List.length_drop]
    omega
  · simp only [List.length_cons, List.length_drop]
    omega
  · simp

/-- Weight contribution of one token: unknown element symbols contribute 0. -/
def tokenWeight (t : Str × Nat) : ℚ :=
  match atomic_weights t.1 with
  | some w => w * t.2
  | none => 0

/-- `MolecularAnalyzer.calculate_molecular_weight_from_formula`
(molecular_utils.py lines 18-36). -/
def calculate_molecular_weight_from_formula (formula : Str) : ℚ :=
  round2 ((formulaTokens formula).foldl (fun acc t => acc + tokenWeight t) 0)

/-! ## molecular_utils.py: `parse_smiles_basic` -/

/-- The character class removed by the first strip
(`re.sub(r'[\(\)\[\]=\-#@+\\/]', '', smiles)`). -/
def structuralChars : Str := ['(', ')', '[', ']', '=', '-', '#', '@', '+', '\\', '/']

/-- The `simplified` string of `parse_smiles_basic`: structural characters
removed, then all digits removed. -/
def simplifySmiles (s : Str) : Str :=
  (s.filter (fun c => !(structuralChars.contains c))).filter (fun c => !(isDigit09 c))

/-- Increment the count of key `k` in an insertion-ordered association list
(Python dict update `d[k] = d.get(k, 0) + 1`). -/
def bump (m : List (Str × Nat)) (k : Str) : List (Str × Nat) :=
  match m with
  | [] => [(k, 1)]
  | (a, n) :: rest => if a = k then (a, n + 1) :: rest else (a, n) :: bump rest k

/-- The atom-counting scan of `parse_smiles_basic`: each uppercase character
starts an atom; an immediately following lowercase character is absorbed into
a two-letter symbol; all other characters are skipped. -/
def countAtomsAux (m : List (Str × Nat)) : Str → List (Str × Nat)
  | [] => m
  | c :: cs =>
    if c.isUpper then
      match cs with
      | c2 :: cs2 =>
        if c2.isLower then countAtomsAux (bump m [c, c2]) cs2
        else countAtomsAux (bump m [c]) (c2 :: cs2)
      | [] => bump m [c]
    else countAtomsAux m cs

/-- `atom_counts` of `parse_smiles_basic`, in dict insertion order. -/
def atomCounts (smiles : Str) : List (Str × Nat) :=
  countAtomsAux [] (simplifySmiles smiles)

/-- Python string `<` (lexicographic by code point). -/
def strLt : Str → Str → Bool
  | [], [] => false
  | [], _ :: _ => true
  | _ :: _, [] => false
  | c :: cs, d :: ds => if c = d then strLt cs ds else decide (c < d)

/-- Non-strict string order, `a ≤ b` as `¬ b < a`. -/
def strLe (a b : Str) : Prop := ¬ strLt b a = true

instance : DecidableRel strLe := fun a b => by unfold strLe; infer_instance

/-- Ascending stable sort of the atom symbols
(Python `sorted(atom_counts.keys())`). -/
def sortStrs (l : List Str) : List Str := List.insertionSort strLe l

/-- Count lookup (`atom_counts[atom]`; 0 if absent, which never happens for
keys of the map itself). -/
def lookupCount (m : List (Str × Nat)) (k : Str) : Nat :=
  match m with
  | [] => 0
  | (a, n) :: rest => if a = k then n else lookupCount rest k

/-- The formula-building loop of `parse_smiles_basic`: symbols in ascending
order, count 1 rendered as the bare symbol, larger counts appended. -/
def formulaOfCounts (counts : List (Str × Nat)) : Str :=
  (sortStrs (counts.map Prod.fst)).foldl
    (fun acc a =>
      acc ++ (if lookupCount counts a = 1 then a else a ++ natToChars (lookupCount counts a)))
    []

/-- Weight of an atom-count map, skipping unknown symbols. -/
def smilesWeight (m : List (Str × Nat)) : ℚ :=
  m.foldl (fun acc t => acc + tokenWeight t) 0

/-- Result record of `parse_smiles_basic`. -/
structure SmilesData where
  atom_counts : List (Str × Nat)
  molecular_formula : Str
  molecular_weight : ℚ
  atom_count : Nat
deriving DecidableEq

/-- `MolecularAnalyzer.parse_smiles_basic` (molecular_utils.py lines 38-85). -/
def parse_smiles_basic (smiles : Str) : SmilesData :=
  let counts := atomCounts smiles
  { atom_counts := counts
    molecular_formula := formulaOfCounts counts
    molecular_weight := round2 (smilesWeight counts)
    atom_count := (counts.map Prod.snd).sum }

/-! ## molecular_utils.py: `estimate_properties`

`aromatic_rings` is `len(re.findall(r'c1c+c+c+c+c+1|C1=CC=CC=C1', smiles))`.
`re.findall` scans left to right: at each position it tries the first
alternative, then the second; on a match it records it and resumes after the
matched text, otherwise it advances one character.

The first alternative matches `c1`, then (after greedy backtracking) the
maximal run of at least five `c` characters, then `1`.  The second is the
literal `C1=CC=CC=C1`. -/

/-- The literal `C1=CC=CC=C1`. -/
def upperRing : Str := ['C', '1', '=', 'C', 'C', '=', 'C', 'C', '=', 'C', '1']

/-- Drop a literal from the head of a string, if present. -/
def dropLit : Str → Str → Option Str
  | [], s => some s
  | _ :: _, [] => none
  | p :: ps, c :: cs => if c = p then dropLit ps cs else none

/-- Match of the branch `c1c+c+c+c+c+1` at the head of the string; returns
the suffix after the matched text. -/
def matchAromLower : Str → Option Str
  | 'c' :: '1' :: rest =>
    if 5 ≤ (rest.takeWhile (fun c => c = 'c')).length then
      dropLit ['1'] (rest.dropWhile (fun c => c = 'c'))
    else none
  | _ => none

/-- Match of the branch `C1=CC=CC=C1` at the head of the string. -/
def matchAromUpper (s : Str) : Option Str := dropLit upperRing s

/-- The combined alternation `c1c+c+c+c+c+1|C1=CC=CC=C1`: first branch
first, as in the regex. -/
def matchAromBoth (s : Str) : Option Str :=
  match matchAromLower s with
  | some r => some r
  | none => matchAromUpper s

/-- `re.findall` match count for a matcher `M`, fuel-indexed: on a match,
resume after it; otherwise advance one character. -/
def scanF (M : Str → Option Str) : Nat → Str → Nat
  | 0, _ => 0
  | _ + 1, [] => 0
  | fuel + 1, c :: s =>
    match M (c :: s) with
    | some r => 1 + scanF M fuel r
    | none => scanF M fuel s

/-- `re.findall` match count for a matcher `M`. -/
def scanCount (M : Str → Option Str) (s : Str) : Nat := scanF M s.length s

/-- Result record of `estimate_properties`. -/
structure Properties where
  aromatic_rings : Nat
  hydroxyl_groups : Nat
  nitrogen_count : Nat
  sulfur_count : Nat
  halogen_count : Nat
  estimated_logp : ℚ
  lipinski_violations : Nat
  drug_like : Bool
deriving DecidableEq

/-- `MolecularAnalyzer.estimate_properties` (molecular_utils.py lines 87-127). -/
def estimate_properties (smiles : Str) : Properties :=
  let hydroxyl := countChar 'O' smiles + countSub2 'O' 'H' smiles
  let nitrogen := countChar 'N' smiles
  let carbon := countChar 'C' smiles + countChar 'c' smiles
  let oxygen := countChar 'O' smiles
  let logp :=
    if 0 < oxygen then round2 (((carbon : ℚ) - (oxygen : ℚ)) * 0.5)
    else round2 ((carbon : ℚ) * 0.5)
  let mw := (parse_smiles_basic smiles).molecular_weight
  let violations :=
    (if 500 < mw then 1 else 0) + (if 5 < logp then 1 else 0) +
      (if 5 < hydroxyl then 1 else 0) + (if 10 < nitrogen + hydroxyl then 1 else 0)
  { aromatic_rings := scanCount matchAromBoth smiles
    hydroxyl_groups := hydroxyl
    nitrogen_count := nitrogen
    sulfur_count := countChar 'S' smiles
    halogen_count := countChar 'F' smiles + countSub2 'C' 'l' smiles +
      countSub2 'B' 'r' smiles + countChar 'I' smiles
    estimated_logp := logp
    lipinski_violations := violations
    drug_like := violations ≤ 1 }

/-! ## molecular_utils.py: `analyze_molecule` -/

/-- ASCII alphanumeric test; models the regex class `[0-9A-Za-z]`. -/
def isAlnumAZ (c : Char) : Bool := isDigit09 c || isUpperAZ c || isLowerAZ c

/-- Match of `/([CH][0-9]*[A-Z][0-9A-Za-z]*)` at the head of the string;
returns the captured group. -/
def matchInchiAt : Str → Option Str
  | '/' :: c :: rest =>
    if c = 'C' ∨ c = 'H' then
      match rest.dropWhile isDigit09 with
      | u :: rest2 =>
        if isUpperAZ u then
          some (c :: rest.takeWhile isDigit09 ++ u :: rest2.takeWhile isAlnumAZ)
        else none
      | [] => none
    else none
  | _ => none

/-- `re.search(r'/([CH][0-9]*[A-Z][0-9A-Za-z]*)', s)`: leftmost match. -/
def searchInchiFormula : Str → Option Str
  | [] => none
  | c :: s =>
    match matchInchiAt (c :: s) with
    | some f => some f
    | none => searchInchiFormula s

/-- Result record of `analyze_molecule`; each optional field models the
presence of the corresponding key in the Python result dict. -/
structure MoleculeResult where
  input_value : Str
  input_type : Str
  success : Bool
  error : Option Str
  atom_counts : Option (List (Str × Nat))
  molecular_formula : Option Str
  molecular_weight : Option ℚ
  atom_count : Option Nat
  properties : Option Properties
  smiles : Option Str
  inchi : Option Str
deriving DecidableEq

/-- The result record before any branch runs. -/
def baseResult (input_value input_type : Str) : MoleculeResult :=
  { input_value := input_value
    input_type := input_type
    success := true
    error := none
    atom_counts := none
    molecular_formula := none
    molecular_weight := none
    atom_count := none
    properties := none
    smiles := none
    inchi := none }

/-- `analyze_molecule` (molecular_utils.py lines 129-173).  All branch
bodies are total, so the outer `except` clause is dead; the only failure is
the explicit unsupported-type branch. -/
def analyze_molecule (input_value : Str) (input_type : Str) : MoleculeResult :=
  let base := baseResult input_value input_type
  if pyLower input_type = "smiles".toList then
    let md := parse_smiles_basic input_value
    { base with
      atom_counts := some md.atom_counts
      molecular_formula := some md.molecular_formula
      molecular_weight := some md.molecular_weight
      atom_count := some md.atom_count
      properties := some (estimate_properties input_value)
      smiles := some input_value }
  else if pyLower input_type = "inchi".toList then
    match searchInchiFormula input_value with
    | some f =>
      { base with
        inchi := some input_value
        molecular_formula := some f
        molecular_weight := some (calculate_molecular_weight_from_formula f) }
    | none => { base with inchi := some input_value }
  else if pyLower input_type = "formula".toList then
    { base with
      molecular_formula := some input_value
      molecular_weight := some (calculate_molecular_weight_from_formula input_value) }
  else
    { base with
      success := false
      error := some ("Unsupported input type: ".toList ++ input_type) }

/-! ## routes.py: `find_open_reading_frames` -/

/-- An ORF record (`start`, `end`, `length`, `frame` in the Python dict;
`end` is a Lean keyword, so the field is `end_`). -/
structure ORF where
  start : Nat
  end_ : Nat
  length : Nat
  frame : Nat
deriving DecidableEq

/-- `sequence[i:i+3]`. -/
def codonAt (seq : Str) (i : Nat) : Str := (seq.drop i).take 3

/-- The stop codons. -/
def stopCodons : List Str := [['T', 'A', 'A'], ['T', 'A', 'G'], ['T', 'G', 'A']]

/-- The index list of Python `range(a, n, 3)` (for natural bounds). -/
def range3 (a n : Nat) : List Nat :=
  if a < n then a :: range3 (a + 3) n else []
termination_by n - a
decreasing_by omega

/-- The body of the start-codon branch: scan forward for the first stop
codon; record the ORF only if its length is at least 150. -/
def orfAt (seq : Str) (frame i : Nat) : Option ORF :=
  if codonAt seq i = ['A', 'T', 'G'] then
    match (range3 (i + 3) (seq.length - 2)).find?
        (fun j => stopCodons.contains (codonAt seq j)) with
    | some j =>
      if 150 ≤ j - i + 3 then some ⟨i + 1, j + 3, j - i + 3, frame + 1⟩ else none
    | none => none
  else none

/-- `find_open_reading_frames` (routes.py lines 199-223). -/
def find_open_reading_frames (seq : Str) : List ORF :=
  (range3 0 (seq.length - 2)).filterMap (orfAt seq 0) ++
    (range3 1 (seq.length - 2)).filterMap (orfAt seq 1) ++
    (range3 2 (seq.length - 2)).filterMap (orfAt seq 2)

/-! ## routes.py: `analyze_dna_rna`

The route handler is modelled as a function of the JSON fields it reads
(`sequence`, `sequence_type`, `name`, `options`) plus the wall-clock reading
`datetime.utcnow().isoformat()`, passed explicitly as `now`.

The AI-predictions block at the end of the handler (routes.py lines
179-192) is reachable: app.py calls `initialize_ai_system()` (app.py line
69) before importing routes (app.py line 82), so routes.py can import a
live `AIEngine`.  The block's effect on the result record is to add (or
not) an `ai_predictions` key; whether and with what payload depends on
process state outside this module — engine presence, trained models, and
the database (the engine also commits a `PredictionResult` row as a side
effect).  That outcome is therefore an input of the embedding, passed as
an explicit `AiOutcome` argument, exactly as the wall-clock reading is
passed as `now`.  (For this call site a successful prediction payload is
in fact the fixed dict of `rule_based_property_prediction` with an empty
SMILES, but the model leaves the payload opaque: no claim depends on
it.) -/

/-- The `options` dict: the three boolean flags the handler reads
(`geneAnnotation`, `secondaryStructure`, `conservationAnalysis`). -/
structure SeqOptions where
  geneAnnot : Bool
  secondaryStructure : Bool
  conservationAnalysis : Bool
deriving DecidableEq

/-- Sequence cleanup: `strip().upper()`, FASTA header-line removal, then
whitespace removal (`''.join(sequence.split())`). -/
def cleanSequence (raw : Str) : Str :=
  let s := pyUpper (pyStrip raw)
  let s :=
    match s with
    | '>' :: _ => (s.dropWhile (fun c => c ≠ '\n')).filter (fun c => c ≠ '\n')
    | _ => s
  s.filter (fun c => !(pyIsSpace c))

/-- The `valid_bases` table, with the `.get(..., set('ATCG'))` fallback. -/
def valid_bases (ty : Str) : List Char :=
  if ty = "dna".toList then ['A', 'T', 'C', 'G']
  else if ty = "rna".toList then ['A', 'U', 'C', 'G']
  else if ty = "protein".toList then "ACDEFGHIKLMNPQRSTVWY".toList
  else if ty = "gene".toList then ['A', 'T', 'C', 'G']
  else ['A', 'T', 'C', 'G']

/-- Per-symbol composition counts over an alphabet.  (Python iterates over a
set, whose order is unspecified; the record is compared as a key-value map,
modelled here in the order the alphabet is written in the source.) -/
def compositionOf (alphabet : List Char) (seq : Str) : List (Char × Nat) :=
  alphabet.map (fun b => (b, countChar b seq))

/-- The `base_weights` table with default 320. -/
def base_weights (c : Char) : ℚ :=
  if c = 'A' then 331.2
  else if c = 'T' then 322.2
  else if c = 'G' then 347.2
  else if c = 'C' then 307.2
  else if c = 'U' then 308.2
  else 320

/-- Nucleotide molecular weight: `sum(base_weights.get(base, 320))`. -/
def nucleotideWeight (seq : Str) : ℚ :=
  round2 (seq.foldl (fun acc b => acc + base_weights b) 0)

/-- GC content: `round((gc_count / len(sequence)) * 100, 2) if sequence else 0`. -/
def gcContent (seq : Str) : ℚ :=
  if seq = [] then 0
  else
    round2 (((countChar 'G' seq + countChar 'C' seq : ℕ) : ℚ) / (seq.length : ℚ) * 100)

/-- Melting temperature (routes.py lines 127-132), rounded to one decimal. -/
def meltingTemp (seq : Str) : ℚ :=
  if seq.length < 14 then
    round1 (((countChar 'A' seq + countChar 'T' seq) * 2 +
      (countChar 'G' seq + countChar 'C' seq) * 4 : ℕ))
  else
    round1 (64.9 + 41 * (((countChar 'G' seq + countChar 'C' seq : ℕ) : ℚ) - 16.4) /
      (seq.length : ℚ))

/-- The `aa_weights` table with default 120. -/
def aa_weights (c : Char) : ℚ :=
  if c = 'A' then 89.1 else if c = 'R' then 174.2
  else if c = 'N' then 132.1 else if c = 'D' then 133.1
  else if c = 'C' then 121.2 else if c = 'E' then 147.1
  else if c = 'Q' then 146.2 else if c = 'G' then 75.1
  else if c = 'H' then 155.2 else if c = 'I' then 131.2
  else if c = 'L' then 131.2 else if c = 'K' then 146.2
  else if c = 'M' then 149.2 else if c = 'F' then 165.2
  else if c = 'P' then 115.1 else if c = 'S' then 105.1
  else if c = 'T' then 119.1 else if c = 'W' then 204.2
  else if c = 'Y' then 181.2 else if c = 'V' then 117.1
  else 120

/-- Protein molecular weight: residue sum minus water per peptide bond. -/
def proteinWeight (seq : Str) : ℚ :=
  round2 (seq.foldl (fun acc a => acc + aa_weights a) 0 - ((seq.length : ℚ) - 1) * 18.015)

/-- One feature of the gene-annotation block. -/
structure Feature where
  type : Str
  location : Str
  description : Str
deriving DecidableEq

/-- The `gene_annotation` value built from the ORF list. -/
structure GeneAnnot where
  features : List Feature
  functions : List Str
deriving DecidableEq

/-- Build the `gene_annotation` value (routes.py lines 138-144). -/
def mkGeneAnnot (orfs : List ORF) : GeneAnnot :=
  { features := orfs.map (fun orf =>
      { type := "ORF".toList
        location := natToChars orf.start ++ "-".toList ++ natToChars orf.end_
        description := "Length: ".toList ++ natToChars orf.length ++ " bp".toList })
    functions :=
      if orfs = [] then ["No significant ORFs found".toList]
      else ["Potential protein coding sequence".toList] }

/-- A secondary-structure placeholder record; `structure_text` models the
dict key `structure_notation`. -/
structure SecStructure where
  structure_text : Str
  free_energy : ℚ
  confidence : Nat
  structure_type : Str
deriving DecidableEq

/-- `predict_rna_secondary_structure` (routes.py lines 225-233). -/
def predict_rna_secondary_structure (seq : Str) : SecStructure :=
  { structure_text := List.replicate seq.length '.'
    free_energy := -(seq.length : ℚ) * 0.5
    confidence := 75
    structure_type := "Linear with potential hairpins".toList }

/-- `predict_protein_secondary_structure` (routes.py lines 235-246). -/
def predict_protein_secondary_structure (seq : Str) : SecStructure :=
  { structure_text := List.replicate (seq.length / 3) 'H' ++
      List.replicate (seq.length / 3) 'E' ++
      List.replicate (seq.length - 2 * (seq.length / 3)) 'C'
    free_energy := -(seq.length : ℚ) * 0.8
    confidence := 70
    structure_type := "Mixed alpha-helix and beta-sheet".toList }

/-- The `conservation_analysis` placeholder record. -/
structure ConsAnalysis where
  score : ℚ
  conserved_regions : Nat
  summary : Str
deriving DecidableEq

/-- The conservation-analysis block (routes.py lines 172-177). -/
def mkConsAnalysis (seq : Str) : ConsAnalysis :=
  { score := min 85 ((seq.length : ℚ) * 0.5)
    conserved_regions := seq.length / 20
    summary :=
      ("Conservation analysis shows moderate to high conservation in " ++
        "functional domains").toList }

/-- A value stored under the `ai_predictions` key: either the prediction
dict returned by `get_ai_prediction` (opaque payload), or the
`{'note': ...}` record written by the handler's own exception branch. -/
inductive AiPredValue where
  | predictions (payload : Str)
  | note (msg : Str)
deriving DecidableEq

/-- The `results` record of `analyze_dna_rna`; each optional field models
the presence of the corresponding key. -/
structure SeqResult where
  sequence : Str
  sequence_type : Str
  length : Nat
  analysis_name : Str
  timestamp : Str
  composition : Option (List (Char × Nat))
  gc_content : Option ℚ
  molecular_weight : Option ℚ
  melting_temp : Option ℚ
  open_reading_frames : Option (List ORF)
  gene_annot : Option GeneAnnot
  secondary_structure : Option SecStructure
  conservation_analysis : Option ConsAnalysis
  ai_predictions : Option AiPredValue
deriving DecidableEq

/-- The JSON response of the route: `{'success': True, 'data': ...}` or
`{'success': False, 'error': ...}`. -/
inductive SeqResponse where
  | ok (data : SeqResult)
  | err (msg : Str)
deriving DecidableEq

/-- The successful-path result construction of `analyze_dna_rna`
(routes.py lines 96-177), for an already cleaned, validated sequence, with
the timestamp field left empty (it is patched in by `buildSeqResult`). -/
def buildSeqBody (seq ty name : Str) (opts : SeqOptions) : SeqResult :=
  let base : SeqResult :=
    { sequence := seq
      sequence_type := ty
      length := seq.length
      analysis_name := name
      timestamp := []
      composition := none
      gc_content := none
      molecular_weight := none
      melting_temp := none
      open_reading_frames := none
      gene_annot := none
      secondary_structure := none
      conservation_analysis := none
      ai_predictions := none }
  let r :=
    if ty = "dna".toList ∨ ty = "rna".toList ∨ ty = "gene".toList then
      let r :=
        { base with
          composition := some (compositionOf (valid_bases ty) seq)
          gc_content := some (gcContent seq)
          molecular_weight := some (nucleotideWeight seq)
          melting_temp := if 0 < seq.length then some (meltingTemp seq) else none }
      if (ty = "dna".toList ∨ ty = "gene".toList) ∧ opts.geneAnnot then
        let orfs := find_open_reading_frames seq
        { r with
          open_reading_frames := some orfs
          gene_annot := some (mkGeneAnnot orfs) }
      else r
    else if ty = "protein".toList then
      { base with
        composition := some (compositionOf (valid_bases ty) seq)
        molecular_weight := some (proteinWeight seq) }
    else base
  let r :=
    if opts.secondaryStructure then
      if ty = "rna".toList then
        { r with secondary_structure := some (predict_rna_secondary_structure seq) }
      else if ty = "protein".toList then
        { r with secondary_structure := some (predict_protein_secondary_structure seq) }
      else r
    else r
  if opts.conservationAnalysis then
    { r with conservation_analysis := some (mkConsAnalysis seq) }
  else r

/-- The full `results` record, timestamp (`datetime.utcnow().isoformat()`)
included. -/
def buildSeqResult (seq ty name : Str) (opts : SeqOptions) (now : Str) : SeqResult :=
  { buildSeqBody seq ty name opts with timestamp := now }

/-- The observable outcome of the AI-predictions block (routes.py lines
179-192) at the time of the call, determined by engine/model/database
state outside this module:
* `absent` — `ai_engine` is falsy, the block is skipped;
* `predicted p` — `get_ai_prediction` returned a dict without an `error`
  key (payload `p`), which is stored under `ai_predictions`;
* `errorKey` — it returned a dict with an `error` key, so no key is added;
* `raised` — the block raised, and the handler's own `except` stores the
  fixed note record. -/
inductive AiOutcome where
  | absent
  | predicted (payload : Str)
  | errorKey
  | raised
deriving DecidableEq

/-- The effect of the AI-predictions block on the result record. -/
def applyAi (r : SeqResult) (ai : AiOutcome) : SeqResult :=
  match ai with
  | .absent => r
  | .predicted p => { r with ai_predictions := some (AiPredValue.predictions p) }
  | .errorKey => r
  | .raised =>
    let msg : Str := "AI predictions temporarily unavailable".toList
    { r with ai_predictions := some (AiPredValue.note msg) }

/-- `analyze_dna_rna` (routes.py lines 65-197). -/
def analyze_dna_rna (rawSeq ty name : Str) (opts : SeqOptions) (now : Str)
    (ai : AiOutcome) : SeqResponse :=
  if cleanSequence rawSeq = [] then .err ("No sequence provided".toList)
  else if !((cleanSequence rawSeq).all (fun b => (valid_bases ty).contains b)) then
    .err ("Invalid characters in ".toList ++ ty ++ " sequence".toList)
  else .ok (applyAi (buildSeqResult (cleanSequence rawSeq) ty name opts now) ai)

/-! ## Statement-side definitions used by the claims -/

/-- Erase the two call-time-dependent fields of a successful response —
the timestamp and the `ai_predictions` entry — to compare what remains of
two invocations made at different times / in different engine states. -/
def clearVolatile : SeqResponse → SeqResponse
  | .ok r => .ok { r with timestamp := [], ai_predictions := none }
  | .err m => .err m

/-- The claim's description of a recorded ORF: in some 0-based reading frame
`f`, a codon-aligned `ATG` at 0-based index `i` (within the scanned range),
`j` the first codon-aligned stop-codon index after it, length at least 150;
recorded with 1-based start `i+1`, end `j+3` (the last base of the stop
codon, inclusive), length = end − start + 1, and frame label `f+1`. -/
def IsClaimORF (seq : Str) (o : ORF) : Prop :=
  ∃ f i j, f < 3 ∧ f ≤ i ∧ (i - f) % 3 = 0 ∧ i < seq.length - 2 ∧
    codonAt seq i = ['A', 'T', 'G'] ∧
    i + 3 ≤ j ∧ (j - (i + 3)) % 3 = 0 ∧ j < seq.length - 2 ∧
    codonAt seq j ∈ stopCodons ∧
    (∀ k, i + 3 ≤ k → (k - (i + 3)) % 3 = 0 → k < seq.length - 2 → k < j →
      codonAt seq k ∉ stopCodons) ∧
    150 ≤ j - i + 3 ∧
    o.start = i + 1 ∧ o.end_ = j + 3 ∧ o.length = o.end_ - o.start + 1 ∧
    o.frame = f + 1

/-! ## Theorems for the claims -/

/-- C2: `analyze_molecule` never propagates an exception (its embedding is a
total function): for every input it returns a record carrying `input_value`,
`input_type` and a success flag, and for every `input_type` whose lowercase
form is outside smiles/inchi/formula the record has `success = false` with
an error message naming the unsupported type. -/
theorem C2_analyze_molecule_total_unsupported (v t : Str) :
    (analyze_molecule v t).input_value = v ∧
    (analyze_molecule v t).input_type = t ∧
    (pyLower t ≠ "smiles".toList → pyLower t ≠ "inchi".toList →
      pyLower t ≠ "formula".toList →
      (analyze_molecule v t).success = false ∧
      (analyze_molecule v t).error =
        some ("Unsupported input type: ".toList ++ t)) := by
  unfold analyze_molecule baseResult
  split_ifs with h1 h2 h3 <;> (cases searchInchiFormula v <;> simp_all)

/-- C3: `lipinski_violations` equals the number of satisfied conditions
among mw > 500, logp > 5, hydroxyl > 5, nitrogen + hydroxyl > 10 (hence lies
in 0–4), and `drug_like` holds iff it is at most 1; a profile with mw 600,
logp 6, hydroxyl 6, nitrogen 5 yields 4 violations and `drug_like = false`. -/
theorem C3_lipinski_violation_count (s : Str) :
    (estimate_properties s).lipinski_violations =
      ([decide ((500 : ℚ) < (parse_smiles_basic s).molecular_weight),
        decide ((5 : ℚ) < (estimate_properties s).estimated_logp),
        decide (5 < (estimate_properties s).hydroxyl_groups),
        decide (10 < (estimate_properties s).nitrogen_count +
          (estimate_properties s).hydroxyl_groups)].count true) ∧
    (estimate_properties s).lipinski_violations ≤ 4 ∧
    ((estimate_properties s).drug_like = true ↔
      (estimate_properties s).lipinski_violations ≤ 1) ∧
    ((parse_smiles_basic s).molecular_weight = 600 →
      (estimate_properties s).estimated_logp = 6 →
      (estimate_properties s).hydroxyl_groups = 6 →
      (estimate_properties s).nitrogen_count = 5 →
      (estimate_properties s).lipinski_violations = 4 ∧
        (estimate_properties s).drug_like = false) := by
  have hV : (estimate_properties s).lipinski_violations =
      (if (500 : ℚ) < (parse_smiles_basic s).molecular_weight then 1 else 0) +
        (if (5 : ℚ) < (estimate_properties s).estimated_logp then 1 else 0) +
        (if 5 < (estimate_properties s).hydroxyl_groups then 1 else 0) +
        (if 10 < (estimate_properties s).nitrogen_count +
            (estimate_properties s).hydroxyl_groups then 1 else 0) := rfl
  have hD : (estimate_properties s).drug_like =
      decide ((estimate_properties s).lipinski_violations ≤ 1) := rfl
  refine ⟨?_, ?_, ?_, ?_⟩
  · rw [hV]
    by_cases h1 : (500 : ℚ) < (parse_smiles_basic s).molecular_weight <;>
      by_cases h2 : (5 : ℚ) < (estimate_properties s).estimated_logp <;>
        by_cases h3 : 5 < (estimate_properties s).hydroxyl_groups <;>
          by_cases h4 : 10 < (estimate_properties s).nitrogen_count +
            (estimate_properties s).hydroxyl_groups <;>
            simp [h1, h2, h3, h4]
  · rw [hV]; split_ifs <;> omega
  · rw [hD]; simp
  · intro e1 e2 e3 e4
    constructor
    · rw [hV, e1, e2, e3, e4]; norm_num
    · rw [hD, hV, e1, e2, e3, e4]; norm_num

/-- Soundness of association-list lookup. -/
theorem lookup_sound {β : Type} (a : Str) (w : β) :
    ∀ l : List (Str × β), l.lookup a = some w → (a, w) ∈ l := by
  intro l h
  induction l with
  | nil => simp [List.lookup] at h
  | cons p l ih =>
    obtain ⟨k, v⟩ := p
    simp only [List.lookup] at h
    split at h
    · rename_i hk
      simp only [Option.some.injEq] at h
      subst h
      have : a = k := by simpa [beq_iff_eq] using hk
      subst this
      exact List.mem_cons_self _ _
    · exact List.mem_cons_of_mem _ (ih h)

/-- Each entry of the atomic-weight table is nonnegative. -/
theorem atomic_weights_nonneg (a : Str) (w : ℚ) (h : atomic_weights a = some w) :
    0 ≤ w := by
  have hm : (a, w) ∈ atomicWeightTable := lookup_sound a w _ h
  fin_cases hm <;> norm_num

/-- Token weights are nonnegative (unknown symbols contribute 0). -/
theorem tokenWeight_nonneg (t : Str × Nat) : 0 ≤ tokenWeight t := by
  unfold tokenWeight
  cases h : atomic_weights t.1 with
  | none => simp
  | some w =>
    have := atomic_weights_nonneg t.1 w h
    positivity

/-- Folding nonnegative token weights from a nonnegative start stays
nonnegative. -/
theorem foldl_tokenWeight_nonneg (l : List (Str × Nat)) (init : ℚ)
    (h : 0 ≤ init) : 0 ≤ l.foldl (fun acc t => acc + tokenWeight t) init := by
  induction l generalizing init with
  | nil => simpa
  | cons t l ih => exact ih _ (add_nonneg h (tokenWeight_nonneg t))

/-- `roundHalfEven` preserves nonnegativity. -/
theorem roundHalfEven_nonneg (q : ℚ) (h : 0 ≤ q) : 0 ≤ roundHalfEven q := by
  have hf : 0 ≤ ⌊q⌋ := Int.floor_nonneg.2 h
  unfold roundHalfEven
  split_ifs <;> omega

/-- `round2` preserves nonnegativity. -/
theorem round2_nonneg (q : ℚ) (h : 0 ≤ q) : 0 ≤ round2 q := by
  unfold round2
  have h1 : 0 ≤ roundHalfEven (q * 100) := roundHalfEven_nonneg _ (by positivity)
  positivity

/-- Skipping the unknown-symbol tokens does not change the weight sum. -/
theorem foldl_tokenWeight_filter (l : List (Str × Nat)) (init : ℚ) :
    l.foldl (fun acc t => acc + tokenWeight t) init =
      (l.filter (fun t => (atomic_weights t.1).isSome)).foldl
        (fun acc t => acc + tokenWeight t) init := by
  induction l generalizing init with
  | nil => rfl
  | cons t l ih =>
    by_cases h : (atomic_weights t.1).isSome
    · rw [List.filter_cons]
      simp only [h, if_true, List.foldl_cons]
      exact ih _
    · have hn : atomic_weights t.1 = none := by
        cases hx : atomic_weights t.1
        · rfl
        · simp [hx] at h
      have hz : tokenWeight t = 0 := by
        unfold tokenWeight
        rw [hn]
      rw [List.filter_cons]
      simp only [h, if_false, Bool.false_eq_true, List.foldl_cons, hz, add_zero]
      exact ih init

/-- C8: `calculate_molecular_weight_from_formula` is total (never raises),
nonnegative, returns 0 when the formula yields no tokens, and unknown
element symbols contribute nothing to the sum. -/
theorem C8_formula_weight_safe (s : Str) :
    0 ≤ calculate_molecular_weight_from_formula s ∧
    (formulaTokens s = [] → calculate_molecular_weight_from_formula s = 0) ∧
    calculate_molecular_weight_from_formula s =
      round2 (((formulaTokens s).filter (fun t => (atomic_weights t.1).isSome)).foldl
        (fun acc t => acc + tokenWeight t) 0) := by
  refine ⟨?_, ?_, ?_⟩
  · exact round2_nonneg _ (foldl_tokenWeight_nonneg _ _ le_rfl)
  · intro h
    unfold calculate_molecular_weight_from_formula
    rw [h]
    simp [round2, roundHalfEven]
  · unfold calculate_molecular_weight_from_formula
    rw [foldl_tokenWeight_filter]

/-- A lowercase character is not uppercase. -/
theorem isUpper_eq_false_of_isLower {c : Char} (h : c.isLower = true) :
    c.isUpper = false := by
  simp only [Char.isLower, Bool.and_eq_true, decide_eq_true_eq] at h
  have h1n : 97 ≤ c.val.toNat := h.1
  unfold Char.isUpper
  rw [Bool.and_eq_false_iff]
  right
  apply decide_eq_false
  intro hle
  have hcn : c.val.toNat ≤ 90 := hle
  omega

/-- `bump` only introduces the bumped key. -/
theorem bump_keys (m : List (Str × Nat)) (k : Str) :
    ∀ p ∈ bump m k, p.1 = k ∨ p.1 ∈ m.map Prod.fst := by
  induction m with
  | nil => simp [bump]
  | cons q rest ih =>
    obtain ⟨a, n⟩ := q
    intro p hp
    simp only [bump] at hp
    split_ifs at hp with ha
    · rcases List.mem_cons.1 hp with h | h
      · subst h; right; simp
      · right; simp [List.mem_cons_of_mem]; right; exact ⟨p.2, h⟩
    · rcases List.mem_cons.1 hp with h | h
      · subst h; right; simp
      · rcases ih p h with h1 | h1
        · exact Or.inl h1
        · right; simp only [List.map_cons, List.mem_cons]; exact Or.inr h1

/-- `bump` adds exactly one to the total count. -/
theorem bump_sum (m : List (Str × Nat)) (k : Str) :
    ((bump m k).map Prod.snd).sum = (m.map Prod.snd).sum + 1 := by
  induction m with
  | nil => simp [bump]
  | cons q rest ih =>
    obtain ⟨a, n⟩ := q
    simp only [bump]
    split_ifs with ha <;> simp [ih] <;> omega

/-- Invariant: every key produced by the counting scan starts with an
uppercase character. -/
theorem countAtomsAux_keys_upper :
    ∀ fuel (s : Str), s.length ≤ fuel → ∀ m : List (Str × Nat),
      (∀ k ∈ m.map Prod.fst, ∃ c cs, k = c :: cs ∧ c.isUpper = true) →
      ∀ k ∈ (countAtomsAux m s).map Prod.fst,
        ∃ c cs, k = c :: cs ∧ c.isUpper = true := by
  intro fuel
  induction fuel with
  | zero =>
    intro s hs m hm
    have : s = [] := List.length_eq_zero.1 (Nat.le_zero.1 hs)
    subst this
    simpa [countAtomsAux] using hm
  | succ n ih =>
    intro s hs m hm
    match s with
    | [] => simpa [countAtomsAux] using hm
    | c :: cs =>
      rw [countAtomsAux.eq_def]
      simp only []
      have hlen : cs.length ≤ n := by simpa using hs
      by_cases hc : c.isUpper
      · simp only [hc, if_true]
        have hbump : ∀ k2 : Str, (∃ c2 cs2, k2 = c2 :: cs2 ∧ c2.isUpper = true) →
            ∀ k ∈ (bump m k2).map Prod.fst, ∃ c cs, k = c :: cs ∧ c.isUpper = true := by
          intro k2 hk2 k hk
          rcases List.mem_map.1 hk with ⟨p, hp, he⟩
          subst he
          rcases bump_keys m k2 p hp with h | h
          · rw [h]; exact hk2
          · exact hm _ h
        match cs with
        | [] => exact hbump [c] ⟨c, [], rfl, hc⟩
        | c2 :: cs2 =>
          by_cases h2 : c2.isLower
          · simp only [h2, if_true]
            exact ih cs2 (by simp at hlen; omega) _ (hbump [c, c2] ⟨c, [c2], rfl, hc⟩)
          · simp only [h2, if_false]
            exact ih (c2 :: cs2) hlen _ (hbump [c] ⟨c, [], rfl, hc⟩)
      · simp only [hc, if_false]
        exact ih cs hlen m hm

/-- The total atom count equals the number of uppercase characters in the
scanned string. -/
theorem countAtomsAux_sum :
    ∀ fuel (s : Str), s.length ≤ fuel → ∀ m : List (Str × Nat),
      ((countAtomsAux m s).map Prod.snd).sum =
        (m.map Prod.snd).sum + s.countP (fun c => c.isUpper) := by
  intro fuel
  induction fuel with
  | zero =>
    intro s hs m
    have : s = [] := List.length_eq_zero.1 (Nat.le_zero.1 hs)
    subst this
    simp [countAtomsAux]
  | succ n ih =>
    intro s hs m
    match s with
    | [] => simp [countAtomsAux]
    | c :: cs =>
      rw [countAtomsAux.eq_def]
      simp only []
      have hlen : cs.length ≤ n := by simpa using hs
      by_cases hc : c.isUpper
      · rw [if_pos hc]
        match cs with
        | [] => simp [bump_sum, List.countP_cons, hc]
        | c2 :: cs2 =>
          simp only []
          by_cases h2 : c2.isLower
          · rw [if_pos h2, ih cs2 (by simp at hlen; omega) _, bump_sum]
            simp [List.countP_cons, hc, isUpper_eq_false_of_isLower h2]
            omega
          · rw [if_neg h2, ih (c2 :: cs2) hlen _, bump_sum]
            simp [List.countP_cons, hc]
            omega
      · rw [if_neg hc, ih cs hlen m]
        simp [List.countP_cons, hc]

/-- C7 counterexample: the strip step of `parse_smiles_basic` does NOT drop
lowercase aromatic-atom characters — they survive into the `simplified`
string (only bond/ring syntax and digits are removed). -/
theorem C7_counterexample_strip_keeps_lowercase :
    'c' ∈ simplifySmiles ("c1ccccc1".toList) := by decide

/-- C7 (amended): lowercase aromatic-atom characters survive the strip step
but the counting loop only starts an atom at an uppercase character, so no
lowercase character contributes an atom of its own: every key of
`atom_counts` starts with an uppercase character, the total atom count is
exactly the number of uppercase characters of the stripped string, and an
all-lowercase aromatic ring yields empty `atom_counts`. -/
theorem C7_lowercase_no_own_atom (s : Str) :
    (∀ k ∈ ((parse_smiles_basic s).atom_counts).map Prod.fst,
      ∃ c cs, k = c :: cs ∧ c.isUpper = true) ∧
    (parse_smiles_basic s).atom_count =
      (simplifySmiles s).countP (fun c => c.isUpper) ∧
    (parse_smiles_basic ("c1ccccc1".toList)).atom_counts = [] := by
  refine ⟨?_, ?_, ?_⟩
  · exact countAtomsAux_keys_upper (simplifySmiles s).length _ le_rfl [] (by simp)
  · have h := countAtomsAux_sum (simplifySmiles s).length _ le_rfl []
    simpa using h
  · decide

/-- `strLt` is asymmetric. -/
theorem strLt_asymm : ∀ a b : Str, strLt a b = true → strLt b a = false := by
  intro a
  induction a with
  | nil => intro b h; cases b <;> simp [strLt] at h ⊢
  | cons c cs ih =>
    intro b h
    cases b with
    | nil => simp [strLt] at h
    | cons d ds =>
      simp only [strLt] at h ⊢
      by_cases hcd : c = d
      · subst hcd
        simpa using ih ds (by simpa using h)
      · rw [if_neg hcd] at h
        rw [if_neg (fun he => hcd he.symm)]
        simp only [decide_eq_true_eq] at h
        simp [not_lt.2 (le_of_lt h)]

/-- `strLt` is transitive. -/
theorem strLt_trans : ∀ a b c : Str,
    strLt a b = true → strLt b c = true → strLt a c = true := by
  intro a
  induction a with
  | nil =>
    intro b c h1 h2
    cases b with
    | nil => simp [strLt] at h1
    | cons d ds => cases c with
      | nil => simp [strLt] at h2
      | cons e es => simp [strLt]
  | cons x xs ih =>
    intro b c h1 h2
    cases b with
    | nil => simp [strLt] at h1
    | cons y ys =>
      cases c with
      | nil => simp [strLt] at h2
      | cons z zs =>
        simp only [strLt] at h1 h2 ⊢
        by_cases hxy : x = y
        · subst hxy
          rw [if_pos rfl] at h1
          by_cases hyz : x = z
          · subst hyz
            rw [if_pos rfl] at h2 ⊢
            exact ih ys zs h1 h2
          · rw [if_neg hyz] at h2 ⊢
            exact h2
        · rw [if_neg hxy] at h1
          simp only [decide_eq_true_eq] at h1
          by_cases hyz : y = z
          · subst hyz
            rw [if_neg hxy]
            simp [h1]
          · rw [if_neg hyz] at h2
            simp only [decide_eq_true_eq] at h2
            have hxz : x < z := lt_trans h1 h2
            rw [if_neg (by rintro rfl; exact lt_irrefl _ hxz)]
            simp [hxz]

/-- Strings with `strLt` false both ways are equal. -/
theorem strLt_connex : ∀ a b : Str,
    strLt a b = false → strLt b a = false → a = b := by
  intro a
  induction a with
  | nil =>
    intro b h1 _
    cases b with
    | nil => rfl
    | cons d ds => simp [strLt] at h1
  | cons c cs ih =>
    intro b h1 h2
    cases b with
    | nil => simp [strLt] at h2
    | cons d ds =>
      simp only [strLt] at h1 h2
      by_cases hcd : c = d
      · subst hcd
        rw [if_pos rfl] at h1 h2
        rw [ih ds h1 h2]
      · rw [if_neg hcd] at h1
        rw [if_neg (fun he => hcd he.symm)] at h2
        simp only [decide_eq_false_iff_not, not_lt] at h1 h2
        exact absurd (le_antisymm h2 h1) hcd

/-- `strLe` is total. -/
theorem strLe_total : ∀ a b : Str, strLe a b ∨ strLe b a := by
  intro a b
  by_cases h : strLt b a = true
  · right
    intro h2
    rw [strLt_asymm b a h] at h2
    cases h2
  · exact Or.inl h

/-- `strLe` is transitive. -/
theorem strLe_trans : ∀ a b c : Str, strLe a b → strLe b c → strLe a c := by
  intro a b c hab hbc hca
  by_cases hx : strLt a b = true
  · exact hbc (strLt_trans c a b hca hx)
  · have : a = b := strLt_connex a b (Bool.not_eq_true _ ▸ hx)
      (Bool.not_eq_true _ ▸ (fun h => hab h : ¬strLt b a = true))
    subst this
    exact hbc hca

/-- Evaluation rule for `⌊·⌋` on a rational given as an integer fraction. -/
theorem floor_eval (q : ℚ) (n : ℤ) (d : ℕ) (z : ℤ) (hq : q = (n : ℚ) / (d : ℚ))
    (hz : n / (d : ℤ) = z) : ⌊q⌋ = z := by
  rw [hq, Rat.floor_intCast_div_natCast, hz]

/-- Evaluation rule for `round2` when the scaled value is below the tie. -/
theorem round2_eval_lt (q : ℚ) (z : ℤ) (hz : ⌊q * 100⌋ = z)
    (hlt : q * 100 - (z : ℚ) < 1/2) : round2 q = (z : ℚ) / 100 := by
  unfold round2 roundHalfEven
  rw [hz, if_pos hlt]

/-- Evaluation rule for `round2` when the scaled value is above the tie. -/
theorem round2_eval_gt (q : ℚ) (z : ℤ) (hz : ⌊q * 100⌋ = z)
    (hgt : 1/2 < q * 100 - (z : ℚ)) : round2 q = ((z : ℚ) + 1) / 100 := by
  unfold round2 roundHalfEven
  rw [hz, if_neg (by linarith), if_pos hgt]
  push_cast
  ring

/-- A left fold appending rendered pieces is the flattened map. -/
theorem foldl_append_flatten {α : Type} (g : α → Str) :
    ∀ (l : List α) (acc : Str),
      l.foldl (fun acc a => acc ++ g a) acc = acc ++ (l.map g).flatten := by
  intro l
  induction l with
  | nil => simp
  | cons a l ih => intro acc; simp [ih, List.append_assoc]

/-- C6: `parse_smiles_basic` emits the molecular formula over the sorted
atom symbols in ascending alphabetical order — count 1 rendered as the bare
symbol, larger counts appended — and on "CCO" returns atom counts C:2, O:1,
formula "C2O" and weight 40.02. -/
theorem C6_molecular_formula (s : Str) :
    List.Sorted strLe (sortStrs ((parse_smiles_basic s).atom_counts.map Prod.fst)) ∧
    (sortStrs ((parse_smiles_basic s).atom_counts.map Prod.fst)).Perm
      ((parse_smiles_basic s).atom_counts.map Prod.fst) ∧
    (parse_smiles_basic s).molecular_formula =
      ((sortStrs ((parse_smiles_basic s).atom_counts.map Prod.fst)).map
        (fun a =>
          if lookupCount (parse_smiles_basic s).atom_counts a = 1 then a
          else a ++ natToChars (lookupCount (parse_smiles_basic s).atom_counts a))).flatten ∧
    parse_smiles_basic ("CCO".toList) =
      { atom_counts := [(['C'], 2), (['O'], 1)]
        molecular_formula := "C2O".toList
        molecular_weight := 40.02
        atom_count := 3 } := by
  refine ⟨?_, ?_, ?_, ?_⟩
  · exact @List.sorted_insertionSort Str strLe _ ⟨strLe_total⟩ ⟨strLe_trans⟩ _
  · exact List.perm_insertionSort strLe _
  · have : (parse_smiles_basic s).molecular_formula =
        formulaOfCounts (atomCounts s) := rfl
    rw [this]
    unfold formulaOfCounts
    rw [foldl_append_flatten]
    rfl
  · have hc : atomCounts ("CCO".toList) = [(['C'], 2), (['O'], 1)] := by decide
    have hmf : formulaOfCounts (atomCounts ("CCO".toList)) = "C2O".toList := by decide
    have hw : smilesWeight (atomCounts ("CCO".toList)) = 40.021 := by
      rw [hc]
      show (0 : ℚ) + 12.011 * (2 : ℕ) + 15.999 * (1 : ℕ) = 40.021
      norm_num
    have hr : round2 (smilesWeight (atomCounts ("CCO".toList))) = 40.02 := by
      rw [hw]
      have hz : ⌊(40.021 : ℚ) * 100⌋ = 4002 :=
        floor_eval _ 40021 10 _ (by norm_num) (by decide)
      have := round2_eval_lt (40.021 : ℚ) 4002 hz (by norm_num)
      rw [this]
      norm_num
    show SmilesData.mk (atomCounts ("CCO".toList))
        (formulaOfCounts (atomCounts ("CCO".toList)))
        (round2 (smilesWeight (atomCounts ("CCO".toList))))
        (((atomCounts ("CCO".toList)).map Prod.snd).sum) = _
    rw [hmf, hr, hc]
    simp [SmilesData.mk.injEq]

/-- The timestamp field of the route's result is the clock reading. -/
theorem buildSeqResult_timestamp (seq ty name : Str) (opts : SeqOptions) (now : Str) :
    (buildSeqResult seq ty name opts now).timestamp = now := rfl

/-- `applyAi` touches only the ai_predictions field. -/
theorem applyAi_preserves (r : SeqResult) (ai : AiOutcome) :
    (applyAi r ai).sequence_type = r.sequence_type ∧
    (applyAi r ai).length = r.length ∧
    (applyAi r ai).composition = r.composition ∧
    (applyAi r ai).gc_content = r.gc_content ∧
    (applyAi r ai).molecular_weight = r.molecular_weight ∧
    (applyAi r ai).melting_temp = r.melting_temp ∧
    (applyAi r ai).open_reading_frames = r.open_reading_frames ∧
    (applyAi r ai).timestamp = r.timestamp := by
  cases ai <;> exact ⟨rfl, rfl, rfl, rfl, rfl, rfl, rfl, rfl⟩

/-- When cleanup yields a nonempty sequence that validates, the route
returns the success record (with the AI block's outcome applied). -/
theorem analyze_dna_rna_ok (raw ty nm : Str) (opts : SeqOptions) (now : Str)
    (ai : AiOutcome) (h1 : cleanSequence raw ≠ [])
    (h2 : (cleanSequence raw).all (fun b => (valid_bases ty).contains b) = true) :
    analyze_dna_rna raw ty nm opts now ai =
      .ok (applyAi (buildSeqResult (cleanSequence raw) ty nm opts now) ai) := by
  unfold analyze_dna_rna
  rw [if_neg h1, if_neg (by rw [h2]; simp)]

/-- A success response always carries the record built from the cleaned
sequence, with the AI block's outcome applied. -/
theorem analyze_dna_rna_ok_elim (raw ty nm : Str) (opts : SeqOptions) (now : Str)
    (ai : AiOutcome) (r : SeqResult)
    (h : analyze_dna_rna raw ty nm opts now ai = .ok r) :
    r = applyAi (buildSeqResult (cleanSequence raw) ty nm opts now) ai := by
  unfold analyze_dna_rna at h
  split_ifs at h with h1 h2
  all_goals (cases h; try rfl)

/-- The nucleotide branch sets the gc_content field from the cleaned
sequence. -/
theorem buildSeqBody_gc (seq ty name : Str) (opts : SeqOptions)
    (h : ty = "dna".toList ∨ ty = "rna".toList ∨ ty = "gene".toList) :
    (buildSeqBody seq ty name opts).gc_content = some (gcContent seq) := by
  simp only [buildSeqBody]
  rw [if_pos h]
  split_ifs <;> rfl

/-- For a sequence type outside the four known tags, neither the nucleotide
nor the protein branch runs: the record keeps the unknown tag and the
length, and carries no composition, gc_content, molecular_weight,
melting_temp or ORF field. -/
theorem buildSeqBody_unknown (seq ty name : Str) (opts : SeqOptions)
    (h1 : ty ≠ "dna".toList) (h2 : ty ≠ "rna".toList)
    (h3 : ty ≠ "protein".toList) (h4 : ty ≠ "gene".toList) :
    (buildSeqBody seq ty name opts).sequence_type = ty ∧
    (buildSeqBody seq ty name opts).length = seq.length ∧
    (buildSeqBody seq ty name opts).composition = none ∧
    (buildSeqBody seq ty name opts).gc_content = none ∧
    (buildSeqBody seq ty name opts).molecular_weight = none ∧
    (buildSeqBody seq ty name opts).melting_temp = none ∧
    (buildSeqBody seq ty name opts).open_reading_frames = none := by
  simp only [buildSeqBody]
  have hng : ¬(ty = "dna".toList ∨ ty = "rna".toList ∨ ty = "gene".toList) := by
    push_neg
    exact ⟨h1, h2, h4⟩
  rw [if_neg hng, if_neg h3]
  cases hsec : opts.secondaryStructure <;> cases hcons : opts.conservationAnalysis <;>
    simp [hsec, hcons, show ty ≠ ['r', 'n', 'a'] from h2,
      show ty ≠ ['p', 'r', 'o', 't', 'e', 'i', 'n'] from h3]

/-- C5: for every DNA/RNA/gene sequence accepted by the analyzer, the
gc_content field is `round((G+C)/length*100, 2)` (0 for an empty sequence);
"GGCC" gives composition counts C:2, G:2 (A and T zero) and gc_content 100;
"AATT" gives gc_content 0. -/
theorem C5_gc_content :
    (∀ raw ty nm : Str, ∀ opts : SeqOptions, ∀ now : Str, ∀ ai : AiOutcome,
      ∀ r : SeqResult,
      (ty = "dna".toList ∨ ty = "rna".toList ∨ ty = "gene".toList) →
      analyze_dna_rna raw ty nm opts now ai = .ok r →
      r.gc_content = some (gcContent (cleanSequence raw))) ∧
    (∀ seq : Str, seq ≠ [] →
      gcContent seq =
        round2 (((countChar 'G' seq + countChar 'C' seq : ℕ) : ℚ) /
          (seq.length : ℚ) * 100)) ∧
    gcContent [] = 0 ∧
    gcContent ("GGCC".toList) = 100 ∧
    gcContent ("AATT".toList) = 0 ∧
    compositionOf (valid_bases ("dna".toList)) ("GGCC".toList) =
      [('A', 0), ('T', 0), ('C', 2), ('G', 2)] := by
  refine ⟨?_, ?_, ?_, ?_, ?_, ?_⟩
  · intro raw ty nm opts now ai r hty hok
    rw [analyze_dna_rna_ok_elim raw ty nm opts now ai r hok]
    have hp := (applyAi_preserves
      (buildSeqResult (cleanSequence raw) ty nm opts now) ai).2.2.2.1
    rw [hp]
    show (buildSeqBody (cleanSequence raw) ty nm opts).gc_content = _
    exact buildSeqBody_gc _ _ _ _ hty
  · intro seq hne
    unfold gcContent
    rw [if_neg hne]
  · rfl
  · have h1 : gcContent ("GGCC".toList) =
        round2 (((4 : ℕ) : ℚ) / ((4 : ℕ) : ℚ) * 100) := rfl
    rw [h1, show (((4 : ℕ) : ℚ) / ((4 : ℕ) : ℚ) * 100) = 100 by norm_num]
    have hz : ⌊(100 : ℚ) * 100⌋ = 10000 :=
      floor_eval _ 10000 1 _ (by norm_num) (by decide)
    rw [round2_eval_lt 100 10000 hz (by norm_num)]
    norm_num
  · have h1 : gcContent ("AATT".toList) =
        round2 (((0 : ℕ) : ℚ) / ((4 : ℕ) : ℚ) * 100) := rfl
    rw [h1, show (((0 : ℕ) : ℚ) / ((4 : ℕ) : ℚ) * 100) = 0 by norm_num]
    have hz : ⌊(0 : ℚ) * 100⌋ = 0 := floor_eval _ 0 1 _ (by norm_num) (by decide)
    rw [round2_eval_lt 0 0 hz (by norm_num)]
    norm_num
  · decide

/-- C9 counterexample: two invocations of the sequence analysis on the same
input at different clock readings — even with the AI engine in the same
state — produce different result records (they differ in the timestamp
field), so the output is not bit-identical across re-runs. -/
theorem C9_counterexample_timestamp :
    analyze_dna_rna ("ACGT".toList) ("dna".toList) ("n".toList)
      ⟨false, false, false⟩ ("2024-01-01T00:00:00".toList) .absent ≠
    analyze_dna_rna ("ACGT".toList) ("dna".toList) ("n".toList)
      ⟨false, false, false⟩ ("2024-01-01T00:00:01".toList) .absent := by
  intro h
  rw [analyze_dna_rna_ok _ _ _ _ _ _ (by decide) (by decide),
    analyze_dna_rna_ok _ _ _ _ _ _ (by decide) (by decide)] at h
  have ht := congrArg SeqResult.timestamp (SeqResponse.ok.inj h)
  rw [(applyAi_preserves _ _).2.2.2.2.2.2.2,
    (applyAi_preserves _ _).2.2.2.2.2.2.2,
    buildSeqResult_timestamp, buildSeqResult_timestamp] at ht
  exact absurd ht (by decide)

/-- C9 (amended): the sequence analysis output is a pure function of its
input apart from two call-time-dependent entries: the timestamp, which
records the invocation time, and the optional ai_predictions entry, whose
presence and payload depend on the AI-engine/model/database state at call
time (that block also commits a prediction row to the database, a side
effect outside the result record).  Erasing those two fields, invocations
at any two times and engine states agree on every other field.  (The
molecular analyzer functions read no clock or engine state at all.) -/
theorem C9_deterministic_modulo_volatile (raw ty nm : Str) (opts : SeqOptions)
    (now now' : Str) (ai ai' : AiOutcome) :
    clearVolatile (analyze_dna_rna raw ty nm opts now ai) =
      clearVolatile (analyze_dna_rna raw ty nm opts now' ai') := by
  unfold analyze_dna_rna
  split_ifs <;> first | rfl | (cases ai <;> cases ai' <;> rfl)

/-- C10: a sequence_type outside dna/rna/protein/gene is not rejected as an
unsupported type: the sequence is validated against the fallback alphabet
ACTG, and on success the returned record carries the unknown tag and the
length but no composition, gc_content, molecular_weight, melting_temp or
ORF field, whatever the AI block's outcome. -/
theorem C10_unknown_type_fallback (raw ty nm : Str) (opts : SeqOptions) (now : Str)
    (ai : AiOutcome)
    (hty : ty ∉ [("dna".toList : Str), "rna".toList, "protein".toList, "gene".toList])
    (h1 : cleanSequence raw ≠ [])
    (h2 : ∀ b ∈ cleanSequence raw, b ∈ (['A', 'T', 'C', 'G'] : Str)) :
    valid_bases ty = ['A', 'T', 'C', 'G'] ∧
    analyze_dna_rna raw ty nm opts now ai =
      .ok (applyAi (buildSeqResult (cleanSequence raw) ty nm opts now) ai) ∧
    (applyAi (buildSeqResult (cleanSequence raw) ty nm opts now) ai).sequence_type
      = ty ∧
    (applyAi (buildSeqResult (cleanSequence raw) ty nm opts now) ai).length =
      (cleanSequence raw).length ∧
    (applyAi (buildSeqResult (cleanSequence raw) ty nm opts now) ai).composition
      = none ∧
    (applyAi (buildSeqResult (cleanSequence raw) ty nm opts now) ai).gc_content
      = none ∧
    (applyAi (buildSeqResult (cleanSequence raw) ty nm opts now) ai).molecular_weight
      = none ∧
    (applyAi (buildSeqResult (cleanSequence raw) ty nm opts now) ai).melting_temp
      = none ∧
    (applyAi (buildSeqResult (cleanSequence raw) ty nm opts now) ai).open_reading_frames
      = none := by
  simp only [List.mem_cons, List.mem_singleton, not_or] at hty
  obtain ⟨hd, hr, hp, hg, -⟩ := hty
  have hvb : valid_bases ty = ['A', 'T', 'C', 'G'] := by
    unfold valid_bases
    rw [if_neg hd, if_neg hr, if_neg hp, if_neg hg]
  have hall : (cleanSequence raw).all
      (fun b => (valid_bases ty).contains b) = true := by
    rw [List.all_eq_true]
    intro b hb
    rw [hvb]
    simpa using h2 b hb
  have hu := buildSeqBody_unknown (cleanSequence raw) ty nm opts hd hr hp hg
  have ha := applyAi_preserves (buildSeqResult (cleanSequence raw) ty nm opts now) ai
  exact ⟨hvb, analyze_dna_rna_ok raw ty nm opts now ai h1 hall,
    ha.1.trans hu.1, ha.2.1.trans hu.2.1, ha.2.2.1.trans hu.2.2.1,
    ha.2.2.2.1.trans hu.2.2.2.1, ha.2.2.2.2.1.trans hu.2.2.2.2.1,
    ha.2.2.2.2.2.1.trans hu.2.2.2.2.2.1, ha.2.2.2.2.2.2.1.trans hu.2.2.2.2.2.2⟩

/-- C10 witness. -/
theorem C10_unknown_type_fallback_witness :
    valid_bases ("xyz".toList) = ['A', 'T', 'C', 'G'] ∧
    analyze_dna_rna ("ACGT".toList) ("xyz".toList) ("n".toList)
      ⟨false, false, false⟩ ("t".toList) .absent =
      .ok (applyAi (buildSeqResult (cleanSequence ("ACGT".toList)) ("xyz".toList)
        ("n".toList) ⟨false, false, false⟩ ("t".toList)) .absent) ∧
    (applyAi (buildSeqResult (cleanSequence ("ACGT".toList)) ("xyz".toList)
      ("n".toList) ⟨false, false, false⟩ ("t".toList)) .absent).sequence_type =
      "xyz".toList ∧
    (applyAi (buildSeqResult (cleanSequence ("ACGT".toList)) ("xyz".toList)
      ("n".toList) ⟨false, false, false⟩ ("t".toList)) .absent).length =
      (cleanSequence ("ACGT".toList)).length ∧
    (applyAi (buildSeqResult (cleanSequence ("ACGT".toList)) ("xyz".toList)
      ("n".toList) ⟨false, false, false⟩ ("t".toList)) .absent).composition = none ∧
    (applyAi (buildSeqResult (cleanSequence ("ACGT".toList)) ("xyz".toList)
      ("n".toList) ⟨false, false, false⟩ ("t".toList)) .absent).gc_content = none ∧
    (applyAi (buildSeqResult (cleanSequence ("ACGT".toList)) ("xyz".toList)
      ("n".toList) ⟨false, false, false⟩ ("t".toList)) .absent).molecular_weight =
      none ∧
    (applyAi (buildSeqResult (cleanSequence ("ACGT".toList)) ("xyz".toList)
      ("n".toList) ⟨false, false, false⟩ ("t".toList)) .absent).melting_temp =
      none ∧
    (applyAi (buildSeqResult (cleanSequence ("ACGT".toList)) ("xyz".toList)
      ("n".toList) ⟨false, false, false⟩ ("t".toList)) .absent).open_reading_frames =
      none :=
  C10_unknown_type_fallback ("ACGT".toList) ("xyz".toList) ("n".toList)
    ⟨false, false, false⟩ ("t".toList) .absent (by decide) (by decide) (by decide)

/-- Membership in the `range(a, n, 3)` index list. -/
theorem mem_range3 (a n i : Nat) :
    i ∈ range3 a n ↔ (a ≤ i ∧ i < n ∧ (i - a) % 3 = 0) := by
  rw [range3]
  split
  · rename_i h
    rw [List.mem_cons, mem_range3 (a + 3) n i]
    constructor
    · rintro (rfl | ⟨h1, h2, h3⟩)
      · exact ⟨le_rfl, h, by simp⟩
      · exact ⟨by omega, h2, by omega⟩
    · rintro ⟨h1, h2, h3⟩
      by_cases he : i = a
      · exact Or.inl he
      · right
        exact ⟨by omega, h2, by omega⟩
  · rename_i h
    simp only [List.not_mem_nil, false_iff]
    rintro ⟨h1, h2, h3⟩
    omega
termination_by n - a
decreasing_by omega

/-- `find?` over `range(a, n, 3)` returns exactly the first aligned index in
range satisfying the predicate. -/
theorem find?_range3_eq_some (p : Nat → Bool) (a n j : Nat) :
    (range3 a n).find? p = some j ↔
      (a ≤ j ∧ j < n ∧ (j - a) % 3 = 0 ∧ p j = true ∧
        ∀ k, a ≤ k → (k - a) % 3 = 0 → k < j → p k = false) := by
  rw [range3]
  split
  · rename_i h
    cases hp : p a
    · rw [List.find?_cons_of_neg _ (by simp [hp]),
        find?_range3_eq_some p (a + 3) n j]
      constructor
      · rintro ⟨h1, h2, h3, h4, h5⟩
        refine ⟨by omega, h2, by omega, h4, ?_⟩
        intro k hk1 hk2 hk3
        by_cases hka : k = a
        · subst hka; exact hp
        · exact h5 k (by omega) (by omega) hk3
      · rintro ⟨h1, h2, h3, h4, h5⟩
        have hja : j ≠ a := by
          rintro rfl
          rw [hp] at h4
          cases h4
        refine ⟨by omega, h2, by omega, h4, ?_⟩
        intro k hk1 hk2 hk3
        exact h5 k (by omega) (by omega) hk3
    · rw [List.find?_cons_of_pos _ (by simp [hp])]
      constructor
      · intro he
        obtain rfl : a = j := by simpa using he
        exact ⟨le_rfl, h, by simp, hp, fun k hk1 hk2 hk3 => absurd hk3 (by omega)⟩
      · rintro ⟨h1, h2, h3, h4, h5⟩
        by_cases hja : j = a
        · subst hja; rfl
        · exfalso
          have := h5 a le_rfl (by simp) (by omega)
          rw [hp] at this
          cases this
  · rename_i h
    simp only [List.find?_nil, reduceCtorEq, false_iff]
    rintro ⟨h1, h2, h3⟩
    omega
termination_by n - a
decreasing_by omega

/-- `contains` agrees with membership for stop codons. -/
theorem contains_stop_iff (x : Str) :
    stopCodons.contains x = true ↔ x ∈ stopCodons := by
  simp [List.contains, List.elem_iff]

/-- Characterization of the inner start-codon scan. -/
theorem orfAt_eq_some (seq : Str) (f i : Nat) (o : ORF) :
    orfAt seq f i = some o ↔
      (codonAt seq i = ['A', 'T', 'G'] ∧
        ∃ j, (range3 (i + 3) (seq.length - 2)).find?
            (fun j => stopCodons.contains (codonAt seq j)) = some j ∧
          150 ≤ j - i + 3 ∧ o = ⟨i + 1, j + 3, j - i + 3, f + 1⟩) := by
  unfold orfAt
  by_cases hatg : codonAt seq i = ['A', 'T', 'G']
  · rw [if_pos hatg]
    cases hf : (range3 (i + 3) (seq.length - 2)).find?
        (fun j => stopCodons.contains (codonAt seq j)) with
    | none => simp [hatg]
    | some j' =>
      simp only []
      split_ifs with hlen
      · simp only [Option.some.injEq, hatg, true_and]
        constructor
        · rintro rfl
          exact ⟨j', rfl, hlen, rfl⟩
        · rintro ⟨j, hj, hl, rfl⟩
          obtain rfl : j' = j := by simpa using hj
          rfl
      · simp only [reduceCtorEq, false_iff, hatg, true_and, not_exists]
        rintro j ⟨hj, hl, -⟩
        obtain rfl : j' = j := by simpa using hj
        exact hlen hl
  · rw [if_neg hatg]
    simp [hatg]

/-- Membership in the ORF list comes from one of the three frames. -/
theorem mem_findORF_iff (seq : Str) (o : ORF) :
    o ∈ find_open_reading_frames seq ↔
      ∃ f, f < 3 ∧ ∃ i ∈ range3 f (seq.length - 2), orfAt seq f i = some o := by
  unfold find_open_reading_frames
  simp only [List.mem_append, List.mem_filterMap]
  constructor
  · rintro ((⟨i, hi, ho⟩ | ⟨i, hi, ho⟩) | ⟨i, hi, ho⟩)
    · exact ⟨0, by omega, i, hi, ho⟩
    · exact ⟨1, by omega, i, hi, ho⟩
    · exact ⟨2, by omega, i, hi, ho⟩
  · rintro ⟨f, hf, i, hi, ho⟩
    interval_cases f
    · exact Or.inl (Or.inl ⟨i, hi, ho⟩)
    · exact Or.inl (Or.inr ⟨i, hi, ho⟩)
    · exact Or.inr ⟨i, hi, ho⟩

/-- C1: `find_open_reading_frames` records exactly the ORFs described by the
claim: in each of the three reading frames, each codon-aligned ATG start,
paired with the first codon-aligned stop codon after it, is recorded —
1-based start at the ATG, end at the last base of the stop codon, length =
end − start + 1, frame label — if and only if the length is at least 150. -/
theorem C1_orf_detection (seq : Str) (o : ORF) :
    o ∈ find_open_reading_frames seq ↔ IsClaimORF seq o := by
  rw [mem_findORF_iff]
  constructor
  · rintro ⟨f, hf, i, hi, ho⟩
    rw [mem_range3] at hi
    rw [orfAt_eq_some] at ho
    obtain ⟨hatg, j, hj, hlen, rfl⟩ := ho
    rw [find?_range3_eq_some] at hj
    obtain ⟨hj1, hj2, hj3, hj4, hj5⟩ := hj
    refine ⟨f, i, j, hf, hi.1, hi.2.2, hi.2.1, hatg, hj1, hj3, hj2,
      (contains_stop_iff _).1 hj4, ?_, hlen, rfl, rfl,
      (by show j - i + 3 = (j + 3) - (i + 1) + 1; omega), rfl⟩
    intro k hk1 hk2 _ hk4 hmem
    have := hj5 k hk1 hk2 hk4
    rw [(contains_stop_iff _).2 hmem] at this
    cases this
  · rintro ⟨f, i, j, hf, hfi, hmod, hilt, hatg, hij, hjmod, hjlt, hstop,
      hfirst, hlen, ho1, ho2, ho3, ho4⟩
    refine ⟨f, hf, i, ?_, ?_⟩
    · rw [mem_range3]
      exact ⟨hfi, hilt, hmod⟩
    · rw [orfAt_eq_some]
      refine ⟨hatg, j, ?_, hlen, ?_⟩
      · rw [find?_range3_eq_some]
        refine ⟨hij, hjlt, hjmod, (contains_stop_iff _).2 hstop, ?_⟩
        intro k hk1 hk2 hk3
        have hnm := hfirst k hk1 hk2 (by omega) hk3
        cases hc : stopCodons.contains (codonAt seq k)
        · rfl
        · exact absurd ((contains_stop_iff _).1 hc) hnm
      · obtain ⟨s, e, l, fr⟩ := o
        have hs : s = i + 1 := ho1
        have he : e = j + 3 := ho2
        have hfr : fr = f + 1 := ho4
        have hl : l = e - s + 1 := ho3
        subst hs
        subst he
        subst hfr
        subst hl
        have harith : (j + 3) - (i + 1) + 1 = j - i + 3 := by omega
        rw [harith]

/-- `dropLit` strips exactly the given literal. -/
theorem dropLit_eq_some : ∀ (p s r : Str), dropLit p s = some r ↔ s = p ++ r := by
  intro p
  induction p with
  | nil =>
    intro s r
    simp [dropLit]
  | cons x ps ih =>
    intro s r
    cases s with
    | nil => simp [dropLit]
    | cons c cs =>
      simp only [dropLit]
      split_ifs with hc
      · subst hc
        rw [ih cs r]
        simp
      · simp only [reduceCtorEq, false_iff, List.cons_append, List.cons.injEq, not_and]
        intro he
        exact absurd he hc

/-- Characterization of the upper-ring branch match. -/
theorem matchAromUpper_eq_some (s r : Str) :
    matchAromUpper s = some r ↔ s = upperRing ++ r :=
  dropLit_eq_some upperRing s r

/-- `takeWhile`/`dropWhile` on a satisfying run followed by a failing head. -/
theorem takeWhile_dropWhile_replicate (p : Char → Bool) (c b : Char) (hc : p c = true)
    (hb : p b = false) (r : Str) :
    ∀ m, (List.replicate m c ++ b :: r).takeWhile p = List.replicate m c ∧
      (List.replicate m c ++ b :: r).dropWhile p = b :: r := by
  intro m
  induction m with
  | zero => simp [List.takeWhile, List.dropWhile, hb]
  | succ k ih =>
    simp only [List.replicate_succ, List.cons_append, List.takeWhile, List.dropWhile, hc,
      List.append_eq]
    exact ⟨by rw [ih.1], by rw [ih.2]⟩

/-- Characterization of the lower-ring branch match: `c1`, a maximal run of
at least five `c`s, then `1`. -/
theorem matchAromLower_eq_some (s r : Str) :
    matchAromLower s = some r ↔
      ∃ m, 5 ≤ m ∧ s = 'c' :: '1' :: (List.replicate m 'c' ++ '1' :: r) := by
  rw [matchAromLower.eq_def]
  split
  · rename_i rest
    constructor
    · intro h
      split_ifs at h with hrun
      rw [dropLit_eq_some] at h
      refine ⟨(rest.takeWhile (fun c => c = 'c')).length, hrun, ?_⟩
      have hrep : rest.takeWhile (fun c => c = 'c') =
          List.replicate (rest.takeWhile (fun c => c = 'c')).length 'c' := by
        apply List.eq_replicate_of_mem
        intro x hx
        simpa using List.mem_takeWhile_imp hx
      have hres : rest = List.replicate
          (rest.takeWhile (fun c => c = 'c')).length 'c' ++ '1' :: r := by
        conv_lhs => rw [← List.takeWhile_append_dropWhile
          (p := fun c => decide (c = 'c')) (l := rest)]
        rw [h]
        conv_lhs => rw [hrep]
        simp
      rw [List.cons.injEq, List.cons.injEq]
      exact ⟨rfl, rfl, hres⟩
    · rintro ⟨m, hm, he⟩
      obtain rfl : rest = List.replicate m 'c' ++ '1' :: r := by simpa using he
      have htd := takeWhile_dropWhile_replicate (fun c => decide (c = 'c')) 'c' '1'
        (by decide) (by decide) r m
      have hcond : 5 ≤ ((List.replicate m 'c' ++ '1' :: r).takeWhile
          (fun c => c = 'c')).length := by
        rw [htd.1]
        simpa using hm
      rw [if_pos hcond, htd.2]
      exact (dropLit_eq_some _ _ _).2 (by simp)
  · rename_i hne
    simp only [reduceCtorEq, false_iff, not_exists]
    rintro m ⟨hm, he⟩
    exact hne (List.replicate m 'c' ++ '1' :: r) he

/-- The lower branch consumes at least one character. -/
theorem matchAromLower_shrink (s r : Str) (h : matchAromLower s = some r) :
    r.length < s.length := by
  obtain ⟨m, -, rfl⟩ := (matchAromLower_eq_some s r).1 h
  simp [List.length_append]
  omega

/-- The upper branch consumes at least one character. -/
theorem matchAromUpper_shrink (s r : Str) (h : matchAromUpper s = some r) :
    r.length < s.length := by
  obtain rfl := (matchAromUpper_eq_some s r).1 h
  simp [upperRing, List.length_append]
  omega

/-- The alternation consumes at least one character. -/
theorem matchAromBoth_shrink (s r : Str) (h : matchAromBoth s = some r) :
    r.length < s.length := by
  unfold matchAromBoth at h
  cases hl : matchAromLower s with
  | some q =>
    rw [hl] at h
    obtain rfl : q = r := by simpa using h
    exact matchAromLower_shrink s _ hl
  | none =>
    rw [hl] at h
    exact matchAromUpper_shrink s r h

/-- The scan count does not depend on the fuel, once sufficient. -/
theorem scanF_congr (M : Str → Option Str)
    (hM : ∀ s r, M s = some r → r.length < s.length) :
    ∀ n m (s : Str), s.length ≤ n → s.length ≤ m → scanF M n s = scanF M m s := by
  intro n
  induction n with
  | zero =>
    intro m s hsn _
    obtain rfl : s = [] := List.length_eq_zero.1 (Nat.le_zero.1 hsn)
    cases m <;> rfl
  | succ n ih =>
    intro m s hsn hsm
    match s, m with
    | [], m => cases m <;> rfl
    | c :: cs, 0 => simp at hsm
    | c :: cs, m + 1 =>
      simp only [scanF]
      cases hm : M (c :: cs) with
      | some r =>
        simp only []
        have hr : r.length < cs.length + 1 := by simpa using hM _ _ hm
        simp only [List.length_cons] at hsn hsm
        rw [ih m r (by omega) (by omega)]
      | none =>
        simp only []
        exact ih m cs (by simpa using hsn) (by simpa using hsm)

/-- On a match, the scan counts it and resumes after the matched text. -/
theorem scanCount_match (M : Str → Option Str)
    (hM : ∀ s r, M s = some r → r.length < s.length)
    (s r : Str) (h : M s = some r) : scanCount M s = 1 + scanCount M r := by
  match s with
  | [] => exact absurd (hM [] r h) (by simp)
  | c :: cs =>
    show scanF M (cs.length + 1) (c :: cs) = _
    simp only [scanF, h]
    have hr : r.length < cs.length + 1 := by simpa using hM _ _ h
    rw [scanF_congr M hM cs.length r.length r (by omega) le_rfl]
    rfl

/-- On a non-match, the scan advances one character. -/
theorem scanCount_skip (M : Str → Option Str) (c : Char) (cs : Str)
    (h : M (c :: cs) = none) : scanCount M (c :: cs) = scanCount M cs := by
  show scanF M (cs.length + 1) (c :: cs) = _
  simp only [scanF, h]
  rfl

/-- Scanning a prefix on which the matcher never fires just skips it. -/
theorem scanCount_append_of_none (M : Str → Option Str) (r : Str) :
    ∀ pre : Str, (∀ q : Str, q <:+ pre → q ≠ [] → M (q ++ r) = none) →
      scanCount M (pre ++ r) = scanCount M r := by
  intro pre
  induction pre with
  | nil => simp
  | cons x xs ih =>
    intro h
    rw [List.cons_append,
      scanCount_skip M x (xs ++ r) (h (x :: xs) (List.suffix_refl _) (by simp)),
      ih (fun q hq hne => h q (hq.trans (List.suffix_cons x xs)) hne)]

/-- The lower branch only fires on a `c`. -/
theorem matchAromLower_none_of_head (x : Char) (s : Str) (h : x ≠ 'c') :
    matchAromLower (x :: s) = none := by
  cases hm : matchAromLower (x :: s) with
  | none => rfl
  | some r =>
    obtain ⟨m, -, he⟩ := (matchAromLower_eq_some _ _).1 hm
    have h1 : x = 'c' := by injection he
    exact absurd h1 h

/-- The upper branch only fires on a `C`. -/
theorem matchAromUpper_none_of_head (x : Char) (s : Str) (h : x ≠ 'C') :
    matchAromUpper (x :: s) = none := by
  cases hm : matchAromUpper (x :: s) with
  | none => rfl
  | some r =>
    have he := (matchAromUpper_eq_some _ _).1 hm
    have he2 : x :: s = 'C' :: (['1', '=', 'C', 'C', '=', 'C', 'C', '=', 'C', '1'] ++ r) := by
      simpa [upperRing] using he
    have h1 : x = 'C' := by injection he2
    exact absurd h1 h

/-- The combined alternation scan splits into the two branch scans: no text
can be shared between a lower-branch match (characters `c`/`1`) and an
upper-branch match (characters `C`/`1`/`=`), so each match of the combined
pattern is a match of exactly one branch and vice versa. -/
theorem scanCount_alternation_split :
    ∀ n (s : Str), s.length ≤ n →
      scanCount matchAromBoth s =
        scanCount matchAromLower s + scanCount matchAromUpper s := by
  intro n
  induction n with
  | zero =>
    intro s hs
    obtain rfl : s = [] := List.length_eq_zero.1 (Nat.le_zero.1 hs)
    rfl
  | succ n ih =>
    intro s hs
    match s with
    | [] => rfl
    | c :: cs =>
      cases hl : matchAromLower (c :: cs) with
      | some r =>
        have hb : matchAromBoth (c :: cs) = some r := by
          unfold matchAromBoth
          rw [hl]
        obtain ⟨m, hm5, he⟩ := (matchAromLower_eq_some _ _).1 hl
        have hlenr : r.length < (c :: cs).length := matchAromLower_shrink _ _ hl
        rw [scanCount_match _ matchAromBoth_shrink _ _ hb,
          scanCount_match _ matchAromLower_shrink _ _ hl]
        have hsplit : c :: cs = ('c' :: '1' :: (List.replicate m 'c' ++ ['1'])) ++ r := by
          rw [he]
          simp
        have hupper : scanCount matchAromUpper (c :: cs) = scanCount matchAromUpper r := by
          rw [hsplit]
          apply scanCount_append_of_none
          intro q hq hne
          obtain ⟨y, ys, rfl⟩ := List.exists_cons_of_ne_nil hne
          apply matchAromUpper_none_of_head
          have hy : y ∈ ('c' :: '1' :: (List.replicate m 'c' ++ ['1'])) :=
            hq.subset (by simp)
          rcases List.mem_cons.1 hy with rfl | hy2
          · decide
          rcases List.mem_cons.1 hy2 with rfl | hy3
          · decide
          rcases List.mem_append.1 hy3 with hy4 | hy5
          · rw [List.eq_of_mem_replicate hy4]
            decide
          · rw [List.mem_singleton.1 hy5]
            decide
        rw [hupper, ih r (by have := hlenr; simp at this ⊢; omega)]
        omega
      | none =>
        cases hu : matchAromUpper (c :: cs) with
        | some r =>
          have hb : matchAromBoth (c :: cs) = some r := by
            unfold matchAromBoth
            rw [hl, hu]
          have he := (matchAromUpper_eq_some _ _).1 hu
          have hlenr : r.length < (c :: cs).length := matchAromUpper_shrink _ _ hu
          rw [scanCount_match _ matchAromBoth_shrink _ _ hb,
            scanCount_match _ matchAromUpper_shrink _ _ hu]
          have hlower : scanCount matchAromLower (c :: cs) =
              scanCount matchAromLower r := by
            rw [he]
            apply scanCount_append_of_none
            intro q hq hne
            obtain ⟨y, ys, rfl⟩ := List.exists_cons_of_ne_nil hne
            apply matchAromLower_none_of_head
            have hy : y ∈ (['C', '1', '=', 'C', 'C', '=', 'C', 'C', '=', 'C', '1'] : Str) :=
              hq.subset (by simp)
            fin_cases hy <;> decide
          rw [hlower, ih r (by have := hlenr; simp at this ⊢; omega)]
          omega
        | none =>
          have hb : matchAromBoth (c :: cs) = none := by
            unfold matchAromBoth
            rw [hl]
            exact hu
          rw [scanCount_skip _ _ _ hb, scanCount_skip _ _ _ hl, scanCount_skip _ _ _ hu]
          exact ih cs (by simpa using hs)

/-- C4: the `aromatic_rings` value of `estimate_properties` — one
`re.findall` over the alternation `c1c+c+c+c+c+1|C1=CC=CC=C1` — equals the
match count of the all-lowercase six-ring pattern plus the match count of
the explicit alternating-bond pattern, the two patterns applied separately
and their counts summed. -/
theorem C4_aromatic_rings_split (s : Str) :
    (estimate_properties s).aromatic_rings =
      scanCount matchAromLower s + scanCount matchAromUpper s := by
  have h : (estimate_properties s).aromatic_rings = scanCount matchAromBoth s := rfl
  rw [h]
  exact scanCount_alternation_split s.length s le_rfl

end MutaSight
